import Mathlib

/-!
Verification of the zone-data core of a Go DNS library (`zone.go`).

Modelling conventions:
* Go strings (domain names in presentation form) are byte lists, `List Nat`.
  The byte 46 is the dot, 42 the asterisk, 92 the backslash.
* Domain labels are byte lists; a split name is a `List (List Nat)`.
* `strings.ToLower` is modelled on the ASCII range (bytes 65..90 map to
  97..122); multi-byte UTF-8 handling is out of scope, and the ordering
  theorem below restricts label bytes to the ASCII range accordingly.
* Functions of the repository that are not part of `zone.go` itself
  (`SplitLabels`, `IsSubDomain`, `Fqdn`) are modelled from the spec, as
  marked in their doc comments.
-/

namespace GoDNS

/-- ASCII lowercasing of one byte, the byte-level model of `strings.ToLower`. -/
def toLowerByte (c : Nat) : Nat :=
  if 65 ≤ c ∧ c ≤ 90 then c + 32 else c

/-- Lowercase every byte of a label. -/
def lowerLabel (l : List Nat) : List Nat :=
  l.map toLowerByte

/-- Modelled from the spec: the label-splitting collaborator scans the name and
breaks it at every unescaped dot; a backslash escapes the following byte, and the
escape bytes are kept inside the label (substring semantics).  `acc` holds the
bytes of the current label in reverse. -/
def splitAux : List Nat → List Nat → List (List Nat)
  | [], acc => if acc = [] then [] else [acc.reverse]
  | 92 :: c :: rest, acc => splitAux rest (c :: 92 :: acc)
  | 46 :: rest, acc => acc.reverse :: splitAux rest []
  | c :: rest, acc => splitAux rest (c :: acc)

/-- Modelled from the spec: `SplitLabels(s)` returns the labels of `s`,
with boundaries at unescaped dots; the root name "." has no labels. -/
def splitLabels (s : List Nat) : List (List Nat) :=
  if s = [46] then [] else splitAux s []

/-- The accumulation loop of `toRadixName`: for each label `l` (left to right)
the source executes `s = strings.ToLower(l) + "." + s`. -/
def toRadixLoop : List (List Nat) → List Nat → List Nat
  | [], s => s
  | l :: rest, s => toRadixLoop rest (lowerLabel l ++ 46 :: s)

/-- `toRadixName` from `zone.go`: "." maps to "."; otherwise the labels are
lowercased and accumulated in reverse order, and the result is prefixed with ".". -/
def toRadixName (d : List Nat) : List Nat :=
  if d = [46] then [46] else 46 :: toRadixLoop (splitLabels d) []

/-- Three-way comparison of two bytes. -/
def byteCmp (a b : Nat) : Ordering :=
  if a < b then .lt else if b < a then .gt else .eq

/-- Lexicographic three-way comparison of two byte strings. -/
def bytesCmp : List Nat → List Nat → Ordering
  | [], [] => .eq
  | [], _ :: _ => .lt
  | _ :: _, [] => .gt
  | a :: x, b :: y =>
    match byteCmp a b with
    | .eq => bytesCmp x y
    | o => o

/-- DNSSEC canonical comparison of two labels: their lowercased bytes,
lexicographically. -/
def labelCmp (a b : List Nat) : Ordering :=
  bytesCmp (lowerLabel a) (lowerLabel b)

/-- Lexicographic comparison of label sequences under `labelCmp`; a missing
label sorts first. -/
def seqCmp : List (List Nat) → List (List Nat) → Ordering
  | [], [] => .eq
  | [], _ :: _ => .lt
  | _ :: _, [] => .gt
  | a :: m, b :: n =>
    match labelCmp a b with
    | .eq => seqCmp m n
    | o => o

/-- DNSSEC canonical precedence of two names, stated as the spec words it:
compare the reversed label sequences, labels lowercased. -/
def canonicalPrecedes (a b : List Nat) : Prop :=
  seqCmp (splitLabels a).reverse (splitLabels b).reverse = .lt

instance (a b : List Nat) : Decidable (canonicalPrecedes a b) := by
  unfold canonicalPrecedes; infer_instance

/-- Modelled from the spec: a well-formed domain name is the root, or splits
into nonempty labels of at most 63 bytes each. -/
def wellFormedName (d : List Nat) : Prop :=
  d = [46] ∨ (splitLabels d ≠ [] ∧ ∀ l ∈ splitLabels d, l ≠ [] ∧ l.length ≤ 63)

instance (d : List Nat) : Decidable (wellFormedName d) := by
  unfold wellFormedName; infer_instance

/-- Every byte of every label of `d` lies strictly between the dot (46) and the
end of the ASCII range: the region where the radix key order is faithful. -/
def goodName (d : List Nat) : Prop :=
  ∀ l ∈ splitLabels d, ∀ c ∈ l, 46 < c ∧ c < 128

instance (d : List Nat) : Decidable (goodName d) := by
  unfold goodName; infer_instance

/-- Encoding of a (reversed) label sequence as it appears in a radix key:
each label lowercased and followed by a dot. -/
def radixEnc (m : List (List Nat)) : List Nat :=
  (m.map (fun l => lowerLabel l ++ [46])).flatten

/-- DNS type code for NS records (well-known constant of the repository). -/
def TypeNS : Nat := 2

/-- DNS type code for RRSIG records (well-known constant of the repository). -/
def TypeRRSIG : Nat := 46

/-- DNS type code for A records (well-known constant of the repository). -/
def TypeA : Nat := 1

/-- Model of a stored resource record.  `name`, `rrtype` model
`Header().Name` and `Header().Rrtype`; `typeCovered` models the
`TypeCovered` field read when `rrtype = TypeRRSIG`.  Go compares stored
records by interface identity (pointer equality), which `id` models:
two distinct stored pointers carry distinct ids. -/
structure RR where
  name : List Nat
  rrtype : Nat
  typeCovered : Nat
  id : Nat
deriving DecidableEq, Repr

/-- Model of the `Error` value built by `Insert`: message and offending name. -/
structure DnsError where
  Err : String
  Name : List Nat
deriving DecidableEq, Repr

/-- `ZoneData` from `zone.go`: all records at one owner name.  The two Go maps
are modelled as total functions defaulting to the empty list.  The `RR` field
(type-indexed record lists) is declared last so that the other fields' types can
mention the record type `RR`. -/
structure ZoneData where
  Name : List Nat
  Signatures : Nat → List RR
  NonAuth : Bool
  RR : Nat → List RR

/-- `newZoneData` from `zone.go`: empty maps, `NonAuth` false. -/
def newZoneData (s : List Nat) : ZoneData :=
  { Name := s, Signatures := fun _ => [], NonAuth := false, RR := fun _ => [] }

/-- Point update of a modelled Go map. -/
def updMap (m : Nat → List RR) (k : Nat) (v : List RR) : Nat → List RR :=
  fun t => if t = k then v else m t

/-- `Zone` from `zone.go`.  The radix tree is modelled as an association list
from radix key to `ZoneData`; `Insert` only ever adds a key that is absent, so
the tree is exactly a finite map.  The locks have no sequential content. -/
structure Zone where
  Origin : List Nat
  Wildcard : Int
  entries : List (List Nat × ZoneData)

/-- Modelled from the spec: `Fqdn` appends the root dot when it is missing. -/
def fqdn (s : List Nat) : List Nat :=
  if s.getLast? = some 46 then s else s ++ [46]

/-- `NewZone` from `zone.go`: empty origin becomes the root, the origin is made
fully qualified, and the store starts empty with a zero wildcard counter.  The
`IsDomainName` validity gate is an external collaborator and is elided; the
claims below quantify over well-formed origins only. -/
def newZone (origin : List Nat) : Zone :=
  let origin := if origin = [] then [46] else origin
  { Origin := fqdn origin, Wildcard := 0, entries := [] }

/-- Modelled from the spec: `IsSubDomain(parent, child)` holds when `child`
equals `parent` or is a subdomain of it, i.e. when `parent`'s label sequence is
a suffix of `child`'s, labels compared case-insensitively. -/
def isSubDomain (parent child : List Nat) : Bool :=
  ((splitLabels parent).map lowerLabel).isSuffixOf ((splitLabels child).map lowerLabel)

/-- The wildcard test of `zone.go`:
`len(name) > 1 && name[0] == '*' && name[1] == '.'`. -/
def isWildcardName : List Nat → Bool
  | 42 :: 46 :: _ => true
  | _ => false

/-- Exact-match lookup in the modelled radix tree. -/
def assocFind : List (List Nat × ZoneData) → List Nat → Option ZoneData
  | [], _ => none
  | e :: rest, k => if e.1 = k then some e.2 else assocFind rest k

/-- In-place mutation of the `ZoneData` stored under an existing key (Go mutates
it through the pointer held by the tree node). -/
def assocUpdate (l : List (List Nat × ZoneData)) (k : List Nat) (f : ZoneData → ZoneData) :
    List (List Nat × ZoneData) :=
  l.map (fun e => if e.1 = k then (e.1, f e.2) else e)

/-- The filing switch shared by both branches of `Insert`: an RRSIG is appended
to the signature list keyed by its covered type; an NS record whose owner
differs from the origin sets `NonAuth` and falls through; every non-RRSIG
record is appended to the type-indexed list under its own type. -/
def fileInto (origin : List Nat) (zd : ZoneData) (r : RR) : ZoneData :=
  if r.rrtype = TypeRRSIG then
    { zd with Signatures := updMap zd.Signatures r.typeCovered (zd.Signatures r.typeCovered ++ [r]) }
  else if r.rrtype = TypeNS then
    { zd with NonAuth := if r.name ≠ origin then true else zd.NonAuth,
              RR := updMap zd.RR r.rrtype (zd.RR r.rrtype ++ [r]) }
  else
    { zd with RR := updMap zd.RR r.rrtype (zd.RR r.rrtype ++ [r]) }

/-- `Zone.Insert` from `zone.go`.  Out-of-zone names are rejected with an
error before any mutation.  A fresh key increments the wildcard counter when
the owner name is a wildcard, files the record into a fresh `ZoneData` and adds
it to the tree; an existing key files the record into the found `ZoneData`. -/
def insert (z : Zone) (r : RR) : Zone × Option DnsError :=
  if isSubDomain z.Origin r.name then
    let key := toRadixName r.name
    match assocFind z.entries key with
    | none =>
      let w := if isWildcardName r.name then z.Wildcard + 1 else z.Wildcard
      let zd := fileInto z.Origin (newZoneData r.name) r
      ({ z with Wildcard := w, entries := (key, zd) :: z.entries }, none)
    | some _ =>
      ({ z with entries := assocUpdate z.entries key (fun zd => fileInto z.Origin zd r) }, none)
  else
    (z, some { Err := "out of zone data", Name := r.name })

/-- Default record used for the (unreachable) out-of-bounds reads below. -/
def noRR : RR := { name := [], rrtype := 0, typeCovered := 0, id := 0 }

/-- One shift step of Go's `append(s[:i], s[i+1:]...)` on a shared backing
array: positions `i .. curLen-2` receive the old values of `i+1 .. curLen-1`. -/
def shiftDown (l : List RR) (i curLen : Nat) : List RR :=
  (List.range l.length).map
    (fun j => if i ≤ j ∧ j + 1 < curLen then l.getD (j + 1) noRR else l.getD j noRR)

/-- The removal loop of `Zone.Remove`, modelled with Go's slice semantics.
The `for i, zr := range list` header is evaluated once, so the loop reads the
original backing array (of unchanging length, iterated `fuel` times starting at
index `i`) even while `append(list[:i], list[i+1:]...)` shifts its contents in
place and shrinks the current length `curLen`.  When a match occurs at an index
with `i + 1 > curLen`, the slice expression `list[i+1:]` is out of range and Go
raises a run-time error; the final component of the result records that crash. -/
def rangeRemove (r : RR) : Nat → Nat → List RR → Nat → Bool → List RR × Nat × Bool × Bool
  | 0, _, backing, curLen, removed => (backing, curLen, removed, false)
  | fuel + 1, i, backing, curLen, removed =>
    let zr := backing.getD i noRR
    if zr = r then
      if i + 1 ≤ curLen then
        rangeRemove r fuel (i + 1) (shiftDown backing i curLen) (curLen - 1) true
      else
        (backing, curLen, removed, true)
    else
      rangeRemove r fuel (i + 1) backing curLen removed

/-- Replace the record list stored under type `t` (the pointer-level effect of
`zd.RR[t] = ...` in the removal loop). -/
def setRRList (t : Nat) (v : List RR) (zd : ZoneData) : ZoneData :=
  { zd with RR := updMap zd.RR t v }

/-- `Zone.Remove` from `zone.go`.  A missing owner name is a no-op.  Otherwise
the scan key is the covered type for an RRSIG and the record type otherwise,
and — exactly as in the source — the scanned and updated list is the plain
type-indexed `RR` list under that key in both cases; the `Signatures` map is
never touched.  If at least one entry was removed and the owner name is a
wildcard, the wildcard counter is decremented and clamped at zero.  The final
`Bool` is true when the loop crashed on an out-of-range slice; in that case the
list shrinkage already performed is kept and the counter is left alone. -/
def remove (z : Zone) (r : RR) : Zone × Option DnsError × Bool :=
  let key := toRadixName r.name
  match assocFind z.entries key with
  | none => (z, none, false)
  | some zd =>
    let t := if r.rrtype = TypeRRSIG then r.typeCovered else r.rrtype
    let lst := zd.RR t
    let res := rangeRemove r lst.length 0 lst lst.length false
    let z1 := { z with entries := assocUpdate z.entries key (setRRList t (res.1.take res.2.1)) }
    if res.2.2.2 then
      (z1, none, true)
    else
      let w := if res.2.2.1 && isWildcardName r.name then
                 (if z.Wildcard - 1 < 0 then 0 else z.Wildcard - 1)
               else z.Wildcard
      ({ z1 with Wildcard := w }, none, false)

/-- `Zone.Find` from `zone.go`: exact lookup under the radix key of `s`. -/
def find (z : Zone) (s : List Nat) : Option ZoneData :=
  assocFind z.entries (toRadixName s)

/-- Nanoseconds, the unit of Go's `time.Duration`. -/
def Nanosecond : Int := 1

/-- One second in nanoseconds. -/
def Second : Int := 1000000000

/-- One hour in nanoseconds. -/
def Hour : Int := 3600 * Second

/-- One day in nanoseconds. -/
def Day : Int := 24 * Hour

/-- One week in nanoseconds. -/
def Week : Int := 7 * Day

/-- `SignatureConfig` from `zone.go`: the re-signing timing policy. -/
structure SignatureConfig where
  Validity : Int
  Refresh : Int
  Jitter : Int
  InceptionOffset : Int
deriving DecidableEq, Repr

/-- `newSignatureConfig` from `zone.go`:
`{4*7*24*Hour, 3*24*Hour, 12*Hour, 300*Second}`. -/
def newSignatureConfig : SignatureConfig :=
  { Validity := 4 * 7 * 24 * Hour
    Refresh := 3 * 24 * Hour
    Jitter := 12 * Hour
    InceptionOffset := 300 * Second }

/-- `DefaultSignatureConfig` from `zone.go`. -/
def DefaultSignatureConfig : SignatureConfig :=
  newSignatureConfig

/-- `Zone.Sign` from `zone.go`: substitutes the default policy for a nil
config and returns nil without touching the zone (the signing algorithm is
unimplemented in the source).  The returned zone and effective config expose
the receiver state and the local `config` variable at the `return`. -/
def sign (z : Zone) (keys : List RR) (config : Option SignatureConfig) :
    Zone × SignatureConfig × Option DnsError :=
  let config :=
    match config with
    | none => DefaultSignatureConfig
    | some c => c
  (z, config, none)

/-- Record lists visible through a `Find` result ("absent" shows nothing). -/
def rrsAt (o : Option ZoneData) (t : Nat) : List RR :=
  match o with
  | some zd => zd.RR t
  | none => []

/-- Signature lists visible through a `Find` result. -/
def sigsAt (o : Option ZoneData) (t : Nat) : List RR :=
  match o with
  | some zd => zd.Signatures t
  | none => []

/-- The `NonAuth` flag visible through a `Find` result (false when absent). -/
def nonAuthAt (o : Option ZoneData) : Bool :=
  match o with
  | some zd => zd.NonAuth
  | none => false

/-- One mutating call against a zone: an `Insert` or a `Remove`. -/
inductive ZoneOp where
  | ins (r : RR)
  | rem (r : RR)

/-- The zone state reached after one call (a crashing `Remove` leaves the
partially shifted state it had produced). -/
def applyOp (z : Zone) (o : ZoneOp) : Zone :=
  match o with
  | .ins r => (insert z r).1
  | .rem r => (remove z r).1

/-- The keys of the modelled radix tree. -/
def keysOf (z : Zone) : List (List Nat) :=
  z.entries.map Prod.fst

/-- Number of tree entries whose owner name is a wildcard name. -/
def wildEntriesLen (z : Zone) : Nat :=
  (z.entries.filter (fun e => isWildcardName e.2.Name)).length

/-- Number of distinct owner names present in the zone that begin with `*.`. -/
def wildcardCount (z : Zone) : Nat :=
  ((z.entries.map (fun e => e.2.Name)).filter isWildcardName).dedup.length

/-- Structural coherence of the store: tree keys are pairwise distinct and each
entry is keyed by the radix key of its owner name. -/
def zoneCoherent (z : Zone) : Prop :=
  (keysOf z).Nodup ∧ ∀ e ∈ z.entries, e.1 = toRadixName e.2.Name

/-- The wildcard-counter bound carried through the induction. -/
def wildInv (z : Zone) : Prop :=
  0 ≤ z.Wildcard ∧ z.Wildcard ≤ (wildEntriesLen z : Int)

theorem radixEnc_cons (l : List Nat) (m : List (List Nat)) :
    radixEnc (l :: m) = lowerLabel l ++ 46 :: radixEnc m := by
  simp [radixEnc]

theorem radixEnc_append (x y : List (List Nat)) :
    radixEnc (x ++ y) = radixEnc x ++ radixEnc y := by
  simp [radixEnc]

theorem toRadixLoop_eq (ls : List (List Nat)) :
    ∀ s : List Nat, toRadixLoop ls s = radixEnc ls.reverse ++ s := by
  induction ls with
  | nil => intro s; simp [toRadixLoop, radixEnc]
  | cons l rest ih =>
    intro s
    rw [toRadixLoop, ih, List.reverse_cons, radixEnc_append, radixEnc_cons]
    simp [radixEnc]

theorem toRadixName_eq (d : List Nat) :
    toRadixName d = 46 :: radixEnc (splitLabels d).reverse := by
  by_cases h : d = [46]
  · subst h; rfl
  · rw [toRadixName, if_neg h, toRadixLoop_eq]; simp

theorem bytesCmp_nil_seg (u w : List Nat) : bytesCmp [] (u ++ 46 :: w) = .lt := by
  cases u <;> rfl

theorem bytesCmp_seg_nil (u w : List Nat) : bytesCmp (u ++ 46 :: w) [] = .gt := by
  cases u <;> rfl

/-- On byte strings all of whose bytes exceed the dot, comparing dot-terminated
segments compares the segments first and falls through to the tails on a tie. -/
theorem bytesCmp_seg : ∀ u v x y : List Nat,
    (∀ c ∈ u, 46 < c) → (∀ c ∈ v, 46 < c) →
    bytesCmp (u ++ 46 :: x) (v ++ 46 :: y) =
      (match bytesCmp u v with
       | .eq => bytesCmp x y
       | o => o)
  | [], [], x, y, _, _ => by
    simp [bytesCmp, byteCmp]
  | [], d :: v, x, y, _, hv => by
    have hd : 46 < d := hv d (List.mem_cons_self d v)
    simp [bytesCmp, byteCmp, hd]
  | c :: u, [], x, y, hu, _ => by
    have hc : 46 < c := hu c (List.mem_cons_self c u)
    have hc2 : ¬ c < 46 := by omega
    simp [bytesCmp, byteCmp, hc, hc2]
  | c :: u, d :: v, x, y, hu, hv => by
    have ih := bytesCmp_seg u v x y
      (fun a ha => hu a (List.mem_cons_of_mem c ha))
      (fun a ha => hv a (List.mem_cons_of_mem d ha))
    simp only [List.cons_append, bytesCmp]
    cases hcd : byteCmp c d <;> simp [hcd, ih]

theorem lowerLabel_good {l : List Nat} (h : ∀ c ∈ l, 46 < c) :
    ∀ c ∈ lowerLabel l, 46 < c := by
  intro c hc
  rcases List.mem_map.1 hc with ⟨a, ha, rfl⟩
  have := h a ha
  unfold toLowerByte
  split <;> omega

/-- The radix encoding of reversed label sequences is order-preserving:
the byte comparison of encodings equals the label-sequence comparison,
provided all label bytes exceed the dot. -/
theorem radixEnc_cmp : ∀ m n : List (List Nat),
    (∀ l ∈ m, ∀ c ∈ l, 46 < c) → (∀ l ∈ n, ∀ c ∈ l, 46 < c) →
    bytesCmp (radixEnc m) (radixEnc n) = seqCmp m n
  | [], [], _, _ => rfl
  | [], b :: n, _, _ => by
    rw [radixEnc_cons]
    exact bytesCmp_nil_seg _ _
  | a :: m, [], _, _ => by
    rw [radixEnc_cons]
    exact bytesCmp_seg_nil _ _
  | a :: m, b :: n, hm, hn => by
    have ha : ∀ c ∈ lowerLabel a, 46 < c :=
      lowerLabel_good (hm a (List.mem_cons_self a m))
    have hb : ∀ c ∈ lowerLabel b, 46 < c :=
      lowerLabel_good (hn b (List.mem_cons_self b n))
    have ih := radixEnc_cmp m n
      (fun l hl => hm l (List.mem_cons_of_mem a hl))
      (fun l hl => hn l (List.mem_cons_of_mem b hl))
    rw [radixEnc_cons, radixEnc_cons, bytesCmp_seg _ _ _ _ ha hb, ih]
    rfl

theorem bytesCmp_cons_same (a : Nat) (x y : List Nat) :
    bytesCmp (a :: x) (a :: y) = bytesCmp x y := by
  simp [bytesCmp, byteCmp]

theorem toRadixName_cmp (A B : List Nat)
    (hA : ∀ l ∈ splitLabels A, ∀ c ∈ l, 46 < c)
    (hB : ∀ l ∈ splitLabels B, ∀ c ∈ l, 46 < c) :
    bytesCmp (toRadixName A) (toRadixName B) =
      seqCmp (splitLabels A).reverse (splitLabels B).reverse := by
  rw [toRadixName_eq, toRadixName_eq, bytesCmp_cons_same]
  exact radixEnc_cmp _ _
    (fun l hl => hA l (List.mem_reverse.1 hl))
    (fun l hl => hB l (List.mem_reverse.1 hl))

theorem assocFind_none_forall {l : List (List Nat × ZoneData)} {k : List Nat}
    (h : assocFind l k = none) : ∀ e ∈ l, e.1 ≠ k := by
  induction l with
  | nil => intro e he; cases he
  | cons e0 rest ih =>
    intro e he
    by_cases h0 : e0.1 = k
    · rw [assocFind, if_pos h0] at h; cases h
    · rw [assocFind, if_neg h0] at h
      rcases List.mem_cons.1 he with rfl | hmem
      · exact h0
      · exact ih h e hmem

theorem assocFind_update (l : List (List Nat × ZoneData)) (k : List Nat) (f : ZoneData → ZoneData) :
    assocFind (assocUpdate l k f) k = (assocFind l k).map f := by
  induction l with
  | nil => rfl
  | cons e rest ih =>
    by_cases h : e.1 = k
    · simp [assocUpdate, assocFind, h]
    · simp only [assocUpdate, List.map_cons] at *
      rw [if_neg h, assocFind, if_neg h, assocFind, if_neg h]
      exact ih

theorem assocUpdate_fst (l : List (List Nat × ZoneData)) (k : List Nat) (f : ZoneData → ZoneData) :
    (assocUpdate l k f).map Prod.fst = l.map Prod.fst := by
  induction l with
  | nil => rfl
  | cons e rest ih =>
    by_cases h : e.1 = k <;> simp [assocUpdate, h] <;>
      simpa [assocUpdate] using ih

theorem fileInto_Name (o : List Nat) (zd : ZoneData) (r : RR) :
    (fileInto o zd r).Name = zd.Name := by
  unfold fileInto
  split_ifs <;> rfl

theorem fileInto_Signatures_self (o : List Nat) (zd : ZoneData) (r : RR)
    (h : r.rrtype = TypeRRSIG) :
    (fileInto o zd r).Signatures r.typeCovered = zd.Signatures r.typeCovered ++ [r] := by
  rw [fileInto, if_pos h]
  simp [updMap]

theorem fileInto_RR_self (o : List Nat) (zd : ZoneData) (r : RR)
    (h : r.rrtype ≠ TypeRRSIG) :
    (fileInto o zd r).RR r.rrtype = zd.RR r.rrtype ++ [r] := by
  rw [fileInto, if_neg h]
  split_ifs <;> simp [updMap]

theorem fileInto_NonAuth (o : List Nat) (zd : ZoneData) (r : RR)
    (hns : r.rrtype = TypeNS) :
    (fileInto o zd r).NonAuth = if r.name ≠ o then true else zd.NonAuth := by
  have h46 : r.rrtype ≠ TypeRRSIG := by rw [hns]; decide
  rw [fileInto, if_neg h46, if_pos hns]

theorem find_insert_new (z : Zone) (r : RR)
    (hsub : isSubDomain z.Origin r.name = true)
    (hnew : assocFind z.entries (toRadixName r.name) = none) :
    find (insert z r).1 r.name = some (fileInto z.Origin (newZoneData r.name) r) := by
  simp only [insert, hsub, if_true, hnew, find]
  simp [assocFind]

theorem find_insert_existing (z : Zone) (r : RR) (zd0 : ZoneData)
    (hsub : isSubDomain z.Origin r.name = true)
    (hfound : assocFind z.entries (toRadixName r.name) = some zd0) :
    find (insert z r).1 r.name = some (fileInto z.Origin zd0 r) := by
  simp only [insert, hsub, if_true, hfound, find]
  rw [assocFind_update, hfound]
  rfl

theorem filter_map_len {α : Type} (g : α → α) (p : α → Bool) (hp : ∀ a, p (g a) = p a) :
    ∀ l : List α, ((l.map g).filter p).length = (l.filter p).length := by
  intro l
  induction l with
  | nil => rfl
  | cons a t ih =>
    rw [List.map_cons, List.filter_cons, List.filter_cons, hp]
    cases p a <;> simp [ih]

theorem assocUpdate_coherent {l : List (List Nat × ZoneData)} {k : List Nat}
    {f : ZoneData → ZoneData} (hf : ∀ zd, (f zd).Name = zd.Name)
    (h : ∀ e ∈ l, e.1 = toRadixName e.2.Name) :
    ∀ e ∈ assocUpdate l k f, e.1 = toRadixName e.2.Name := by
  intro e he
  rcases List.mem_map.1 he with ⟨e0, he0, rfl⟩
  by_cases h0 : e0.1 = k
  · simp only [if_pos h0, hf]
    exact h e0 he0
  · simp only [if_neg h0]
    exact h e0 he0

theorem assocUpdate_wildLen {l : List (List Nat × ZoneData)} {k : List Nat}
    {f : ZoneData → ZoneData} (hf : ∀ zd, (f zd).Name = zd.Name) :
    ((assocUpdate l k f).filter (fun e => isWildcardName e.2.Name)).length =
      (l.filter (fun e => isWildcardName e.2.Name)).length := by
  refine filter_map_len _ _ (fun e => ?_) l
  by_cases h0 : e.1 = k <;> simp [h0, hf]

theorem insert_pres {z : Zone} (r : RR) (h : zoneCoherent z ∧ wildInv z) :
    zoneCoherent (insert z r).1 ∧ wildInv (insert z r).1 := by
  obtain ⟨⟨hnd, hco⟩, hw0, hwle⟩ := h
  by_cases hsub : isSubDomain z.Origin r.name
  · cases hfind : assocFind z.entries (toRadixName r.name) with
    | none =>
      simp only [insert, hsub, if_true, hfind]
      refine ⟨⟨?_, ?_⟩, ?_, ?_⟩
      · rw [keysOf, List.map_cons, List.nodup_cons]
        refine ⟨fun hmem => ?_, hnd⟩
        rcases List.mem_map.1 hmem with ⟨e, he, hke⟩
        exact assocFind_none_forall hfind e he hke
      · intro e he
        rcases List.mem_cons.1 he with rfl | hmem
        · simp [fileInto_Name, newZoneData]
        · exact hco e hmem
      · dsimp only
        cases hwild : isWildcardName r.name <;> simp [hwild] <;> omega
      · have hname : (fileInto z.Origin (newZoneData r.name) r).Name = r.name := by
          rw [fileInto_Name]; rfl
        dsimp only [wildEntriesLen]
        rw [List.filter_cons]
        dsimp only
        rw [hname]
        cases hwild : isWildcardName r.name <;>
          simp only [wildEntriesLen] at hwle <;>
          simp [hwild] <;>
          omega
    | some zd0 =>
      simp only [insert, hsub, if_true, hfind]
      refine ⟨⟨?_, ?_⟩, hw0, ?_⟩
      · rw [keysOf, assocUpdate_fst]
        exact hnd
      · exact assocUpdate_coherent (fun zd => fileInto_Name _ zd r) hco
      · dsimp only [wildEntriesLen]
        rw [assocUpdate_wildLen (fun zd => fileInto_Name _ zd r)]
        exact hwle
  · simp only [insert, hsub, if_false]
    exact ⟨⟨hnd, hco⟩, hw0, hwle⟩

theorem remove_pres {z : Zone} (r : RR) (h : zoneCoherent z ∧ wildInv z) :
    zoneCoherent (remove z r).1 ∧ wildInv (remove z r).1 := by
  obtain ⟨⟨hnd, hco⟩, hw0, hwle⟩ := h
  cases hfind : assocFind z.entries (toRadixName r.name) with
  | none =>
    simp only [remove, hfind]
    exact ⟨⟨hnd, hco⟩, hw0, hwle⟩
  | some zd0 =>
    simp only [remove, hfind]
    set t1 := if r.rrtype = TypeRRSIG then r.typeCovered else r.rrtype with ht1
    set res := rangeRemove r (zd0.RR t1).length 0 (zd0.RR t1) (zd0.RR t1).length false with hres
    have hname : ∀ zd1 : ZoneData, (setRRList t1 (res.1.take res.2.1) zd1).Name = zd1.Name :=
      fun _ => rfl
    have hcoh2 : ∀ W : Int, zoneCoherent
        { Origin := z.Origin, Wildcard := W,
          entries := assocUpdate z.entries (toRadixName r.name) (setRRList t1 (res.1.take res.2.1)) } := by
      intro W
      refine ⟨?_, ?_⟩
      · rw [keysOf]
        dsimp only
        rw [assocUpdate_fst]
        exact hnd
      · dsimp only
        exact assocUpdate_coherent hname hco
    have hlen2 : ∀ W : Int, wildEntriesLen
        { Origin := z.Origin, Wildcard := W,
          entries := assocUpdate z.entries (toRadixName r.name) (setRRList t1 (res.1.take res.2.1)) } =
          wildEntriesLen z := by
      intro W
      dsimp only [wildEntriesLen]
      rw [assocUpdate_wildLen hname]
    cases hcrash : res.2.2.2 with
    | true =>
      simp only [hcrash, if_true]
      exact ⟨hcoh2 _, hw0, by rw [hlen2]; exact hwle⟩
    | false =>
      simp only [hcrash, Bool.false_eq_true, if_false]
      refine ⟨hcoh2 _, ?_, ?_⟩
      · dsimp only
        split_ifs <;> omega
      · dsimp only
        rw [hlen2]
        split_ifs <;> omega

theorem applyOp_pres {z : Zone} (o : ZoneOp) (h : zoneCoherent z ∧ wildInv z) :
    zoneCoherent (applyOp z o) ∧ wildInv (applyOp z o) := by
  cases o with
  | ins r => exact insert_pres r h
  | rem r => exact remove_pres r h

theorem foldl_pres (ops : List ZoneOp) :
    ∀ z : Zone, zoneCoherent z ∧ wildInv z →
      zoneCoherent (ops.foldl applyOp z) ∧ wildInv (ops.foldl applyOp z) := by
  induction ops with
  | nil => intro z h; exact h
  | cons o rest ih => intro z h; exact ih _ (applyOp_pres o h)

theorem newZone_pres (origin : List Nat) :
    zoneCoherent (newZone origin) ∧ wildInv (newZone origin) := by
  refine ⟨⟨?_, ?_⟩, ?_, ?_⟩
  · exact List.nodup_nil
  · intro e he
    simp [newZone] at he
  · exact le_refl 0
  · show (0 : Int) ≤ _
    simp [wildEntriesLen, newZone]

theorem coherent_wildcardCount {z : Zone} (hc : zoneCoherent z) (hw : wildInv z) :
    0 ≤ z.Wildcard ∧ z.Wildcard ≤ (wildcardCount z : Int) := by
  obtain ⟨hnd, hco⟩ := hc
  obtain ⟨hw0, hwle⟩ := hw
  have hmap : z.entries.map Prod.fst = z.entries.map (fun e => toRadixName e.2.Name) :=
    List.map_congr_left hco
  have hnames : (z.entries.map (fun e => e.2.Name)).Nodup := by
    apply List.Nodup.of_map toRadixName
    have hmm : z.entries.map (fun e => toRadixName e.2.Name) =
        (z.entries.map (fun e => e.2.Name)).map toRadixName := by
      rw [List.map_map]
      rfl
    rw [← hmm, ← hmap]
    exact hnd
  have hfilter : ((z.entries.map (fun e => e.2.Name)).filter isWildcardName).Nodup :=
    hnames.filter _
  have hlen : wildcardCount z = wildEntriesLen z := by
    rw [wildcardCount, List.dedup_eq_self.mpr hfilter, List.filter_map, List.length_map,
      wildEntriesLen]
    rfl
  exact ⟨hw0, by rw [hlen]; exact hwle⟩

/-- C1 (counterexample): the claim fails as stated.  "a." and "a!." are both
well-formed domain names and "a." canonically precedes "a!." (the label "a" is
a proper prefix of "a!"), yet `toRadixName "a."` is not lexicographically below
`toRadixName "a!."`: the byte of "!" (33) is smaller than the dot (46) that
terminates the shorter label inside the key, so the keys compare the other way. -/
theorem toRadixName_order_counterexample :
    wellFormedName [97, 46] ∧ wellFormedName [97, 33, 46] ∧
    canonicalPrecedes [97, 46] [97, 33, 46] ∧
    ¬ bytesCmp (toRadixName [97, 46]) (toRadixName [97, 33, 46]) = .lt := by
  decide

/-- C1 (amended): for well-formed domain names all of whose label bytes lie
strictly between the dot byte 46 and 128, the radix keys compare
lexicographically exactly as the names compare in DNSSEC canonical ordering
(reverse-label, lowercase comparison). -/
theorem toRadixName_lt_iff_canonical (A B : List Nat)
    (hwA : wellFormedName A) (hwB : wellFormedName B)
    (hgA : goodName A) (hgB : goodName B) :
    bytesCmp (toRadixName A) (toRadixName B) = .lt ↔ canonicalPrecedes A B := by
  unfold canonicalPrecedes
  rw [toRadixName_cmp A B (fun l hl c hc => (hgA l hl c hc).1)
    (fun l hl c hc => (hgB l hl c hc).1)]

/-- C1 (witness): the amended ordering theorem applied to the concrete names
"a." and "b.". -/
theorem toRadixName_lt_iff_canonical_witness :
    wellFormedName [97, 46] ∧ wellFormedName [98, 46] ∧
    goodName [97, 46] ∧ goodName [98, 46] ∧
    (bytesCmp (toRadixName [97, 46]) (toRadixName [98, 46]) = .lt ↔
      canonicalPrecedes [97, 46] [98, 46]) :=
  ⟨by decide, by decide, by decide, by decide,
    toRadixName_lt_iff_canonical [97, 46] [98, 46] (by decide) (by decide) (by decide) (by decide)⟩

/-- C2 (confirmed): `toRadixName "."` is "." and on every other name the result
is the labels of the name, lowercased, concatenated in reverse order with each
label followed by a dot, the whole prefixed with a dot. -/
theorem toRadixName_spec :
    toRadixName [46] = [46] ∧
    ∀ d : List Nat, d ≠ [46] →
      toRadixName d =
        46 :: ((splitLabels d).reverse.map (fun l => lowerLabel l ++ [46])).flatten := by
  refine ⟨rfl, ?_⟩
  intro d hd
  rw [toRadixName, if_neg hd, toRadixLoop_eq]
  simp [radixEnc]

/-- C2 (witness): the shape theorem applied to the concrete name "a.". -/
theorem toRadixName_spec_witness :
    ([97, 46] : List Nat) ≠ [46] ∧
    toRadixName [97, 46] =
      46 :: ((splitLabels [97, 46]).reverse.map (fun l => lowerLabel l ++ [46])).flatten :=
  ⟨by decide, toRadixName_spec.2 [97, 46] (by decide)⟩

/-- C3 (code bug): `Remove` of an RRSIG scans the plain type-indexed list under
the covered type and never the `Signatures` map, so a stored RRSIG survives its
own removal.  After inserting an RRSIG covering type A at "ex." into a fresh
root zone and removing that exact record, `Remove` reports success without a
crash, yet the signature is still stored under covered type A. -/
theorem remove_rrsig_bug :
    sigsAt (find (remove (insert (newZone [46]) ⟨[101, 120, 46], 46, 1, 0⟩).1
        ⟨[101, 120, 46], 46, 1, 0⟩).1 [101, 120, 46]) 1 = [⟨[101, 120, 46], 46, 1, 0⟩] ∧
    (remove (insert (newZone [46]) ⟨[101, 120, 46], 46, 1, 0⟩).1
        ⟨[101, 120, 46], 46, 1, 0⟩).2 = (none, false) := by
  decide

/-- C4 (counterexample): the claim fails as stated.  Inserting one A record at
the wildcard name "*.a." and then removing it drops the counter to 0, but the
emptied `ZoneData` is never pruned from the index, so exactly one owner name
beginning with "*." is still present in the zone. -/
theorem wildcard_counter_counterexample :
    ¬ (([ZoneOp.ins ⟨[42, 46, 97, 46], 1, 0, 0⟩,
         ZoneOp.rem ⟨[42, 46, 97, 46], 1, 0, 0⟩].foldl applyOp (newZone [46])).Wildcard =
        (wildcardCount ([ZoneOp.ins ⟨[42, 46, 97, 46], 1, 0, 0⟩,
         ZoneOp.rem ⟨[42, 46, 97, 46], 1, 0, 0⟩].foldl applyOp (newZone [46])) : Int)) := by
  decide

/-- C4 (amended): after every finite sequence of Insert and Remove calls
starting from a freshly created zone, the Wildcard counter is never negative
and never exceeds the number of distinct owner names present in the zone whose
name begins with "*." (equality can fail after removals). -/
theorem wildcard_counter_bounds (origin : List Nat) (ops : List ZoneOp) :
    0 ≤ (ops.foldl applyOp (newZone origin)).Wildcard ∧
    (ops.foldl applyOp (newZone origin)).Wildcard ≤
      (wildcardCount (ops.foldl applyOp (newZone origin)) : Int) := by
  have h := foldl_pres ops (newZone origin) (newZone_pres origin)
  exact coherent_wildcardCount h.1 h.2

/-- C4 (witness): the bound theorem applied to a concrete run — the
counterexample history on a fresh root zone. -/
theorem wildcard_counter_bounds_witness :
    0 ≤ ([ZoneOp.ins ⟨[42, 46, 97, 46], 1, 0, 0⟩,
          ZoneOp.rem ⟨[42, 46, 97, 46], 1, 0, 0⟩].foldl applyOp (newZone [46])).Wildcard ∧
    ([ZoneOp.ins ⟨[42, 46, 97, 46], 1, 0, 0⟩,
      ZoneOp.rem ⟨[42, 46, 97, 46], 1, 0, 0⟩].foldl applyOp (newZone [46])).Wildcard ≤
      (wildcardCount ([ZoneOp.ins ⟨[42, 46, 97, 46], 1, 0, 0⟩,
        ZoneOp.rem ⟨[42, 46, 97, 46], 1, 0, 0⟩].foldl applyOp (newZone [46])) : Int) :=
  wildcard_counter_bounds [46]
    [ZoneOp.ins ⟨[42, 46, 97, 46], 1, 0, 0⟩, ZoneOp.rem ⟨[42, 46, 97, 46], 1, 0, 0⟩]

/-- C5 (counterexample): the claim fails as stated for RRSIG records.  After
inserting an RRSIG (type 46, covering type A) at "ex.", `Find` does return a
`ZoneData`, but the record is not in the list stored under its own type 46 —
the dispatch filed it in the signature map under the covered type instead. -/
theorem insert_find_rrsig_counterexample :
    (find (insert (newZone [46]) ⟨[101, 120, 46], 46, 1, 0⟩).1 [101, 120, 46]).isSome = true ∧
    ¬ (⟨[101, 120, 46], 46, 1, 0⟩ : RR) ∈
        rrsAt (find (insert (newZone [46]) ⟨[101, 120, 46], 46, 1, 0⟩).1 [101, 120, 46]) 46 := by
  decide

/-- C5 (amended): after a successful Insert of `r`, `Find` on `r`'s owner name
returns a `ZoneData` that contains `r` — in the signature list keyed by the
covered type when `r` is an RRSIG, and in the type-indexed list under `r`'s
type otherwise. -/
theorem insert_find_roundtrip (z : Zone) (r : RR)
    (hsub : isSubDomain z.Origin r.name = true) :
    (find (insert z r).1 r.name).isSome = true ∧
    (r.rrtype = TypeRRSIG → r ∈ sigsAt (find (insert z r).1 r.name) r.typeCovered) ∧
    (r.rrtype ≠ TypeRRSIG → r ∈ rrsAt (find (insert z r).1 r.name) r.rrtype) := by
  cases hfind : assocFind z.entries (toRadixName r.name) with
  | none =>
    rw [find_insert_new z r hsub hfind]
    refine ⟨rfl, ?_, ?_⟩
    · intro hR
      simp [sigsAt, fileInto_Signatures_self _ _ _ hR]
    · intro hR
      simp [rrsAt, fileInto_RR_self _ _ _ hR]
  | some zd0 =>
    rw [find_insert_existing z r zd0 hsub hfind]
    refine ⟨rfl, ?_, ?_⟩
    · intro hR
      simp [sigsAt, fileInto_Signatures_self _ _ _ hR]
    · intro hR
      simp [rrsAt, fileInto_RR_self _ _ _ hR]

/-- C5 (witness): the round-trip theorem applied to a concrete RRSIG insert
into a fresh root zone. -/
theorem insert_find_roundtrip_witness :
    isSubDomain (newZone [46]).Origin [101, 120, 46] = true ∧
    ((find (insert (newZone [46]) ⟨[101, 120, 46], 46, 1, 7⟩).1 [101, 120, 46]).isSome = true ∧
     ((46 : Nat) = TypeRRSIG →
        (⟨[101, 120, 46], 46, 1, 7⟩ : RR) ∈
          sigsAt (find (insert (newZone [46]) ⟨[101, 120, 46], 46, 1, 7⟩).1 [101, 120, 46]) 1) ∧
     ((46 : Nat) ≠ TypeRRSIG →
        (⟨[101, 120, 46], 46, 1, 7⟩ : RR) ∈
          rrsAt (find (insert (newZone [46]) ⟨[101, 120, 46], 46, 1, 7⟩).1 [101, 120, 46]) 46)) :=
  ⟨by decide, insert_find_roundtrip (newZone [46]) ⟨[101, 120, 46], 46, 1, 7⟩ (by decide)⟩

/-- C6 (confirmed): Insert of an RR whose owner name is neither the origin nor
a subdomain of it returns the "out of zone data" error carrying the offending
name, and returns the zone value completely unchanged. -/
theorem insert_out_of_zone (z : Zone) (r : RR)
    (h : isSubDomain z.Origin r.name = false) :
    insert z r = (z, some { Err := "out of zone data", Name := r.name }) := by
  simp [insert, h]

/-- C6 (witness): inserting an A record at "o." into a zone with origin "ex."
is rejected without mutation. -/
theorem insert_out_of_zone_witness :
    isSubDomain (newZone [101, 120, 46]).Origin [111, 46] = false ∧
    insert (newZone [101, 120, 46]) ⟨[111, 46], 1, 0, 0⟩ =
      (newZone [101, 120, 46], some { Err := "out of zone data", Name := [111, 46] }) :=
  ⟨by decide, insert_out_of_zone (newZone [101, 120, 46]) ⟨[111, 46], 1, 0, 0⟩ (by decide)⟩

/-- C7 (confirmed): inserting an NS record whose owner name equals the origin
leaves the `NonAuth` flag of that name's `ZoneData` unchanged (false when the
name was absent), while inserting an NS record whose owner name differs from
the origin sets `NonAuth` and also appends the record to the plain type-indexed
list under the NS type. -/
theorem insert_ns_nonauth (z : Zone) (r : RR)
    (hns : r.rrtype = TypeNS) (hsub : isSubDomain z.Origin r.name = true) :
    (find (insert z r).1 r.name).isSome = true ∧
    (r.name = z.Origin →
      nonAuthAt (find (insert z r).1 r.name) = nonAuthAt (find z r.name)) ∧
    (r.name ≠ z.Origin →
      nonAuthAt (find (insert z r).1 r.name) = true ∧
      rrsAt (find (insert z r).1 r.name) TypeNS = rrsAt (find z r.name) TypeNS ++ [r]) := by
  have hfind0 : find z r.name = assocFind z.entries (toRadixName r.name) := rfl
  have h46 : r.rrtype ≠ TypeRRSIG := by rw [hns]; decide
  cases hfind : assocFind z.entries (toRadixName r.name) with
  | none =>
    rw [find_insert_new z r hsub hfind, hfind0, hfind]
    refine ⟨rfl, ?_, ?_⟩
    · intro heq
      simp only [nonAuthAt]
      rw [fileInto_NonAuth _ _ _ hns]
      simp [heq, newZoneData]
    · intro hne
      refine ⟨?_, ?_⟩
      · simp only [nonAuthAt]
        rw [fileInto_NonAuth _ _ _ hns]
        simp [hne]
      · simp only [rrsAt]
        have h2 := fileInto_RR_self z.Origin (newZoneData r.name) r h46
        rw [hns] at h2
        rw [h2]
        rfl
  | some zd0 =>
    rw [find_insert_existing z r zd0 hsub hfind, hfind0, hfind]
    refine ⟨rfl, ?_, ?_⟩
    · intro heq
      simp only [nonAuthAt]
      rw [fileInto_NonAuth _ _ _ hns]
      simp [heq]
    · intro hne
      refine ⟨?_, ?_⟩
      · simp only [nonAuthAt]
        rw [fileInto_NonAuth _ _ _ hns]
        simp [hne]
      · simp only [rrsAt]
        have h2 := fileInto_RR_self z.Origin zd0 r h46
        rw [hns] at h2
        rw [h2]

/-- C7 (witness): the NS theorem applied to a delegation NS record at "a.m."
inserted into a fresh zone with origin "m.". -/
theorem insert_ns_nonauth_witness :
    (2 : Nat) = TypeNS ∧
    isSubDomain (newZone [109, 46]).Origin [97, 46, 109, 46] = true ∧
    ((find (insert (newZone [109, 46]) ⟨[97, 46, 109, 46], 2, 0, 0⟩).1
        [97, 46, 109, 46]).isSome = true ∧
     (([97, 46, 109, 46] : List Nat) = (newZone [109, 46]).Origin →
        nonAuthAt (find (insert (newZone [109, 46]) ⟨[97, 46, 109, 46], 2, 0, 0⟩).1
          [97, 46, 109, 46]) = nonAuthAt (find (newZone [109, 46]) [97, 46, 109, 46])) ∧
     (([97, 46, 109, 46] : List Nat) ≠ (newZone [109, 46]).Origin →
        nonAuthAt (find (insert (newZone [109, 46]) ⟨[97, 46, 109, 46], 2, 0, 0⟩).1
          [97, 46, 109, 46]) = true ∧
        rrsAt (find (insert (newZone [109, 46]) ⟨[97, 46, 109, 46], 2, 0, 0⟩).1
          [97, 46, 109, 46]) TypeNS =
          rrsAt (find (newZone [109, 46]) [97, 46, 109, 46]) TypeNS ++
            [⟨[97, 46, 109, 46], 2, 0, 0⟩])) :=
  ⟨rfl, by decide,
    insert_ns_nonauth (newZone [109, 46]) ⟨[97, 46, 109, 46], 2, 0, 0⟩ rfl (by decide)⟩

/-- C9 (confirmed): `Sign` with a nil config substitutes the default policy,
whose values are a validity of 4 weeks, a refresh lead of 3 days, a jitter of
12 hours and an inception offset of 300 seconds. -/
theorem sign_default_config (z : Zone) (keys : List RR) :
    (sign z keys none).2.1 = DefaultSignatureConfig ∧
    DefaultSignatureConfig.Validity = 4 * Week ∧
    DefaultSignatureConfig.Refresh = 3 * Day ∧
    DefaultSignatureConfig.Jitter = 12 * Hour ∧
    DefaultSignatureConfig.InceptionOffset = 300 * Second := by
  refine ⟨rfl, ?_, ?_, ?_, ?_⟩ <;> decide

/-- C10 (confirmed): for every zone, key list and config (nil included), `Sign`
returns success and leaves the zone entirely unchanged — no DNSKEY, RRSIG or
NSEC record is added, replaced or removed. -/
theorem sign_noop (z : Zone) (keys : List RR) (config : Option SignatureConfig) :
    (sign z keys config).1 = z ∧ (sign z keys config).2.2 = none := by
  cases config <;> exact ⟨rfl, rfl⟩

/-- C9 (witness): the default-policy theorem at a concrete zone and key list. -/
theorem sign_default_config_witness :
    (sign (newZone [46]) [] none).2.1 = DefaultSignatureConfig ∧
    DefaultSignatureConfig.Validity = 4 * Week ∧
    DefaultSignatureConfig.Refresh = 3 * Day ∧
    DefaultSignatureConfig.Jitter = 12 * Hour ∧
    DefaultSignatureConfig.InceptionOffset = 300 * Second :=
  sign_default_config (newZone [46]) []

/-- C10 (witness): the frame theorem at a concrete zone, key list and config. -/
theorem sign_noop_witness :
    (sign (newZone [46]) [] none).1 = newZone [46] ∧
    (sign (newZone [46]) [] none).2.2 = none :=
  sign_noop (newZone [46]) [] none

end GoDNS
